import Mathlib

/-!
Shallow embedding of the perspective-calibration core of the
play-draw-track repository:

* `src/lib/homography.ts` — `Homography.compute`, `Homography.solve`,
  `Homography.invert`, `Homography.transform`, `CALIBRATION_PROMPTS`,
  `CALIBRATION_DST_POINTS`, `screenToField`, `fieldToScreen`;
* `src/pages/Index.tsx` — the calibration-session state and its handlers
  `handleCalibrationPointClick`, `handleCalibrationReset`,
  `handleCalibrationComplete`, `handleCalibrationModeChange`, plus the
  static instruction tables;
* `src/components/FieldCalibration.tsx` — `CALIBRATION_CONFIGS` and the
  guarded `handleCanvasClick`;
* `src/components/CalibrationSidebar.tsx` — `getRequiredPoints`.

JavaScript numbers are modelled as exact rationals; the float literal
`1e-10` becomes the rational `1 / 10 ^ 10`.  JavaScript arrays become
`List ℚ`; in-range indexing `a[i]` becomes `List.getD i 0` (the defaults
are never hit on the executions the theorems speak about).
-/

unseal Rat.add Rat.mul Rat.sub Rat.inv

set_option maxRecDepth 100000

set_option maxHeartbeats 1000000

namespace PlayDrawTrack

/-- The `Point` interface of src/lib/homography.ts. -/
structure Point where
  x : ℚ
  y : ℚ
deriving DecidableEq, Repr

/-- A flat vector of JS numbers. -/
abbrev Vec := List ℚ

/-- A row-major matrix: a JS array of rows. -/
abbrev Mat := List Vec

/-- The numerical tolerance `1e-10` used throughout homography.ts. -/
def tol : ℚ := 1 / 10 ^ 10

/-- JS array read `v[i]` for a vector. -/
def getv (v : Vec) (i : ℕ) : ℚ := v.getD i 0

/-- JS array read `M[i]` for a row of a matrix. -/
def getr (M : Mat) (i : ℕ) : Vec := M.getD i []

namespace Homography

/-- The pivot search of `Homography.solve` (lines 36-39):
`let max = i; for (let j = i + 1; j < n; j++) if (|M[j][i]| > |M[max][i]|) max = j`. -/
def findPivot (M : Mat) (i : ℕ) : ℕ :=
  (List.range' (i + 1) (M.length - (i + 1))).foldl
    (fun mx j => if |getv (getr M j) i| > |getv (getr M mx) i| then j else mx) i

/-- The JS destructuring swap `[M[i], M[max]] = [M[max], M[i]]` on rows. -/
def swapRows (M : Mat) (i j : ℕ) : Mat :=
  (M.set i (getr M j)).set j (getr M i)

/-- The JS destructuring swap `[b[i], b[max]] = [b[max], b[i]]` on entries. -/
def swapVec (b : Vec) (i j : ℕ) : Vec :=
  (b.set i (getv b j)).set j (getv b i)

/-- One iteration of the outer elimination loop of `Homography.solve`
(lines 35-50): partial-pivoting swap, the `continue` skip when the pivot
magnitude is below `tol`, then elimination of the rows below row `i`
(only columns `i .. m-2` of each row are updated). -/
def elimStep (m : ℕ) (Mb : Mat × Vec) (i : ℕ) : Mat × Vec :=
  let mx := findPivot Mb.1 i
  let M1 := swapRows Mb.1 i mx
  let b1 := swapVec Mb.2 i mx
  if |getv (getr M1 i) i| < tol then (M1, b1)
  else
    (List.range' (i + 1) (M1.length - (i + 1))).foldl
      (fun Mb2 j =>
        let f := getv (getr Mb2.1 j) i / getv (getr Mb2.1 i) i
        let newRow := (List.range' i (m - 1 - i)).foldl
          (fun r k => r.set k (getv r k - getv (getr Mb2.1 i) k * f))
          (getr Mb2.1 j)
        (Mb2.1.set j newRow,
         Mb2.2.set j (getv Mb2.2 j - getv Mb2.2 i * f)))
      (M1, b1)

/-- One iteration of the back-substitution loop of `Homography.solve`
(lines 53-58), including the `continue` skip on a sub-tolerance diagonal. -/
def backStep (M : Mat) (b : Vec) (m : ℕ) (x : Vec) (i : ℕ) : Vec :=
  if |getv (getr M i) i| < tol then x
  else
    let sum := ((List.range' (i + 1) (m - 1 - (i + 1))).map
      (fun j => getv (getr M i) j * getv x j)).sum
    x.set i ((getv b i - sum) / getv (getr M i) i)

/-- `Homography.solve` (homography.ts lines 28-60).  The declared TS return
type admits `null`, but the body always returns the vector `x`: a
sub-tolerance pivot is skipped with `continue` (leaving `x[i] = 0` where the
diagonal stayed small) rather than reported as failure. -/
def solve (A : Mat) : Vec :=
  let n := A.length
  let m := (A.headD []).length
  let b := A.map fun row => -(getv row (m - 1))
  let M := A.map fun row => row.take (m - 1)
  let Mb := (List.range (min n (m - 1))).foldl (elimStep m) (M, b)
  ((List.range (min n (m - 2) + 1)).reverse).foldl (backStep Mb.1 Mb.2 m)
    (List.replicate (m - 1) 0)

/-- The DLT coefficient matrix assembled by `Homography.compute`
(lines 15-21): two rows pushed per correspondence. -/
def buildA (src dst : List Point) : Mat :=
  (List.range src.length).foldl (fun A i =>
    let p := src.getD i ⟨0, 0⟩
    let q := dst.getD i ⟨0, 0⟩
    A ++ [[-p.x, -p.y, -1, 0, 0, 0, p.x * q.x, p.y * q.x, q.x],
          [0, 0, 0, -p.x, -p.y, -1, p.x * q.y, p.y * q.y, q.y]]) []

/-- Result of `Homography.compute`.  `nullResult` is the returned `null`;
`crash` is the TypeError thrown by `const { x: x2, y: y2 } = dstPoints[i]`
when `dstPoints[i]` is `undefined`, which happens exactly when the image
list is shorter than the reference list; `matrix h` is a returned array. -/
inductive ComputeResult where
  | nullResult : ComputeResult
  | crash : ComputeResult
  | matrix : Vec → ComputeResult
deriving DecidableEq, Repr

/-- `Homography.compute` (lines 11-26).  The guard `if (!h) return null`
of line 24 is dead code: `solve` always returns an array, and any JS array
(even an empty one) is truthy. -/
def compute (src dst : List Point) : ComputeResult :=
  if src.length < 4 then .nullResult
  else if dst.length < src.length then .crash
  else .matrix (solve (buildA src dst) ++ [1])

/-- `Homography.invert` (lines 62-73): closed-form adjugate/determinant
3x3 inverse, returning `null` when the determinant magnitude is below
`tol`. -/
def invert (H : Vec) : Option Vec :=
  let h := if H.length = 8 then H ++ [1] else H
  let det := getv h 0 * (getv h 4 * getv h 8 - getv h 7 * getv h 5)
    - getv h 1 * (getv h 3 * getv h 8 - getv h 5 * getv h 6)
    + getv h 2 * (getv h 3 * getv h 7 - getv h 4 * getv h 6)
  if |det| < tol then none
  else
    let invDet := 1 / det
    some [(getv h 4 * getv h 8 - getv h 7 * getv h 5) * invDet,
          (getv h 2 * getv h 7 - getv h 1 * getv h 8) * invDet,
          (getv h 1 * getv h 5 - getv h 2 * getv h 4) * invDet,
          (getv h 5 * getv h 6 - getv h 3 * getv h 8) * invDet,
          (getv h 0 * getv h 8 - getv h 2 * getv h 6) * invDet,
          (getv h 3 * getv h 2 - getv h 0 * getv h 5) * invDet,
          (getv h 3 * getv h 7 - getv h 6 * getv h 4) * invDet,
          (getv h 6 * getv h 1 - getv h 0 * getv h 7) * invDet,
          (getv h 0 * getv h 4 - getv h 3 * getv h 1) * invDet]

/-- Result of `Homography.transform`: either a finite point or the
`{ x: Infinity, y: Infinity }` at-infinity marker (lifted to a variant,
since exact rationals have no infinity value). -/
inductive TransformResult where
  | atInfinity : TransformResult
  | pt : Point → TransformResult
deriving DecidableEq, Repr

/-- `Homography.transform` (lines 75-84).  A `null` or short coefficient
array silently yields the origin; a sub-tolerance homogeneous denominator
yields the at-infinity marker; otherwise the exact perspective division. -/
def transform (p : Point) (h : Option Vec) : TransformResult :=
  match h with
  | none => .pt ⟨0, 0⟩
  | some h =>
    if h.length < 9 then .pt ⟨0, 0⟩
    else
      let w := getv h 6 * p.x + getv h 7 * p.y + getv h 8
      if |w| < tol then .atInfinity
      else .pt ⟨(getv h 0 * p.x + getv h 1 * p.y + getv h 2) / w,
                (getv h 3 * p.x + getv h 4 * p.y + getv h 5) / w⟩

/-- `screenToField` (homography.ts lines 114-117): drops the at-infinity
marker to `null`. -/
def screenToField (p : Point) (H : Option Vec) : Option Point :=
  match transform p H with
  | .atInfinity => none
  | .pt q => some q

/-- `fieldToScreen` (homography.ts lines 119-122). -/
def fieldToScreen (p : Point) (H : Vec) : Option Point :=
  match invert H with
  | some invH => screenToField p (some invH)
  | none => none

/-- The pivot `M[i][i]` that `solve` inspects at outer step `i` (that is,
after the partial-pivoting swap) when elimination has reached state `Mb`. -/
def pivotAt (Mb : Mat × Vec) (i : ℕ) : ℚ :=
  getv (getr (swapRows Mb.1 i (findPivot Mb.1 i)) i) i

/-- `elimAllPivotsOk A` holds when, during the elimination phase of
`solve A`, every inspected pivot has magnitude at least `tol`, i.e. the
`continue` skip branch of line 43 is never taken. -/
def elimAllPivotsOk (A : Mat) : Bool :=
  let n := A.length
  let m := (A.headD []).length
  let b := A.map fun row => -(getv row (m - 1))
  let M := A.map fun row => row.take (m - 1)
  ((List.range (min n (m - 1))).foldl
    (fun st i => (elimStep m st.1 i, st.2 && decide (tol ≤ |pivotAt st.1 i|)))
    ((M, b), true)).2

/-- Verification-side: the dot product of the first 8 entries of a row
with a solution vector (the elimination in `solve` on a 4-correspondence
DLT system works with 8 columns). -/
def dot8 (r x : Vec) : ℚ := ((List.range 8).map fun k => getv r k * getv x k).sum

/-- Verification-side: `x` solves every row of the 8-column system
`M · x = b`. -/
def sat8 (M : Mat) (b : Vec) (x : Vec) : Prop :=
  ∀ r, r < M.length → dot8 (getr M r) x = getv b r

/-- Verification-side: every entry strictly below the diagonal in the
first `t` columns is zero (the invariant established column by column by
the forward elimination). -/
def lowZero (t : ℕ) (M : Mat) : Prop :=
  ∀ r c, c < t → c < r → getv (getr M r) c = 0

end Homography

/-- `CALIBRATION_PROMPTS` (homography.ts lines 88-96). -/
def CALIBRATION_PROMPTS : List String :=
  ["Click the <strong>Center Spot</strong> of the pitch",
   "Click the <strong>Top</strong> of the Center Circle (closest to goal)",
   "Click the <strong>Right</strong> point of the Center Circle",
   "Click the <strong>Bottom</strong> of the Center Circle (furthest from goal)",
   "Click the <strong>Left</strong> point of the Center Circle",
   "Click the <strong>Midpoint</strong> of the <strong>Top Touchline</strong>",
   "Click the <strong>Midpoint</strong> of the <strong>Bottom Touchline</strong>"]

/-- `CALIBRATION_DST_POINTS` (homography.ts lines 99-107): real-world
coordinates (meters) of the center-circle calibration targets, in prompt
order: center spot, circle top, circle right, circle bottom, circle left,
top-touchline midpoint, bottom-touchline midpoint. -/
def CALIBRATION_DST_POINTS : List Point :=
  [⟨105/2, 34⟩, ⟨105/2, 497/20⟩, ⟨1233/20, 34⟩, ⟨105/2, 863/20⟩,
   ⟨867/20, 34⟩, ⟨105/2, 0⟩, ⟨105/2, 68⟩]

/-- The `CalibrationMode` union type of FieldCalibration.tsx:
`"away-goal" | "home-goal" | "center-circle"`. -/
inductive CalibrationMode where
  | awayGoal : CalibrationMode
  | homeGoal : CalibrationMode
  | centerCircle : CalibrationMode
deriving DecidableEq, Repr

/-- The `CalibrationPoint` interface of FieldCalibration.tsx. -/
structure CalibrationPoint where
  x : ℚ
  y : ℚ
  label : String
deriving DecidableEq, Repr

/-- Modelled from the spec: `getFieldReferencePoints` is imported from
`@/lib/homography` by Index.tsx and FieldOverlay.tsx, but its definition is
missing from the provided sources.  Per spec section 4.4 it is the pure
per-mode reference-geometry lookup whose point order matches the prompt
order; per section 8 the center-circle table is exactly the 7-point list
`CALIBRATION_DST_POINTS`; per section 3 each goal mode needs 8 points
describing two nested rectangles (the small and large goal boxes), here
laid out on the 105 x 68 pitch (goal area corners at y = 24.84 / 43.16,
depth 5.5; penalty area corners at y = 13.84 / 54.16, depth 16.5) in the
prompt order: small box TL, TR, BL, BR, then large box TL, TR, BL, BR. -/
def getFieldReferencePoints : CalibrationMode → List Point
  | .homeGoal =>
      [⟨0, 621/25⟩, ⟨11/2, 621/25⟩, ⟨0, 1079/25⟩, ⟨11/2, 1079/25⟩,
       ⟨0, 346/25⟩, ⟨33/2, 346/25⟩, ⟨0, 1354/25⟩, ⟨33/2, 1354/25⟩]
  | .awayGoal =>
      [⟨105, 621/25⟩, ⟨199/2, 621/25⟩, ⟨105, 1079/25⟩, ⟨199/2, 1079/25⟩,
       ⟨105, 346/25⟩, ⟨177/2, 346/25⟩, ⟨105, 1354/25⟩, ⟨177/2, 1354/25⟩]
  | .centerCircle => CALIBRATION_DST_POINTS

namespace Index

/-- The calibration-related component state of pages/Index.tsx: the
`useState` cells `calibrationMode`, `calibrationPoints`, `isCalibrated`,
`homography` and `inverseHomography`. -/
structure SessionState where
  calibrationMode : CalibrationMode
  calibrationPoints : List CalibrationPoint
  isCalibrated : Bool
  homography : Option Vec
  inverseHomography : Option Vec
deriving DecidableEq, Repr

/-- `handleCalibrationPointClick` (Index.tsx lines 155-162): appends the
clicked point, labelled `Point n`, unconditionally. -/
def handleCalibrationPointClick (x y : ℚ) (s : SessionState) : SessionState :=
  { s with calibrationPoints :=
      s.calibrationPoints ++
        [⟨x, y, "Point " ++ toString (s.calibrationPoints.length + 1)⟩] }

/-- `handleCalibrationReset` (Index.tsx lines 164-169). -/
def handleCalibrationReset (s : SessionState) : SessionState :=
  { s with calibrationPoints := [], isCalibrated := false,
           homography := none, inverseHomography := none }

/-- `handleCalibrationComplete` (Index.tsx lines 171-191).  On the two
failure paths the source only raises a toast; no state cell is written, so
the state is returned unchanged.  (A `crash` from `compute` would throw;
no state cell is written in that case either.) -/
def handleCalibrationComplete (s : SessionState) : SessionState :=
  let fieldPoints := getFieldReferencePoints s.calibrationMode
  let imagePoints := s.calibrationPoints.map fun p => (⟨p.x, p.y⟩ : Point)
  if fieldPoints.length ≤ imagePoints.length then
    match Homography.compute fieldPoints imagePoints with
    | .matrix inverseH =>
      match Homography.invert inverseH with
      | some forwardH =>
          { s with inverseHomography := some inverseH,
                   homography := some forwardH, isCalibrated := true }
      | none => s
    | _ => s
  else s

/-- `handleCalibrationModeChange` (Index.tsx lines 193-199). -/
def handleCalibrationModeChange (mode : CalibrationMode) (s : SessionState) :
    SessionState :=
  { s with calibrationMode := mode, calibrationPoints := [],
           isCalibrated := false, homography := none,
           inverseHomography := none }

/-- The per-mode instruction tables inside `getCalibrationInstruction`
(Index.tsx lines 202-233). -/
def instructions : CalibrationMode → List String
  | .awayGoal =>
      ["Click top-left corner of small goal area",
       "Click top-right corner of small goal area",
       "Click bottom-left corner of small goal area",
       "Click bottom-right corner of small goal area",
       "Click top-left corner of large goal area",
       "Click top-right corner of large goal area",
       "Click bottom-left corner of large goal area",
       "Click bottom-right corner of large goal area"]
  | .homeGoal =>
      ["Click top-left corner of small goal area",
       "Click top-right corner of small goal area",
       "Click bottom-left corner of small goal area",
       "Click bottom-right corner of small goal area",
       "Click top-left corner of large goal area",
       "Click top-right corner of large goal area",
       "Click bottom-left corner of large goal area",
       "Click bottom-right corner of large goal area"]
  | .centerCircle =>
      ["Click the Center Spot of the pitch",
       "Click the Top of the Center Circle (closest to a goal)",
       "Click the Right point of the Center Circle (on halfway line)",
       "Click the Bottom of the Center Circle (furthest from a goal)",
       "Click the Left point of the Center Circle (on halfway line)",
       "Click the Midpoint of the Top Touchline",
       "Click the Midpoint of the Bottom Touchline"]

/-- `getCalibrationInstruction` (Index.tsx lines 202-236): the
`instructions[mode][pointIndex] || "Calibration complete"` lookup. -/
def getCalibrationInstruction (mode : CalibrationMode) (pointIndex : ℕ) :
    String :=
  (instructions mode).getD pointIndex "Calibration complete"

/-- `getRequiredPoints` (Index.tsx lines 238-245). -/
def getRequiredPoints : CalibrationMode → ℕ
  | .awayGoal => 8
  | .homeGoal => 8
  | .centerCircle => 7

end Index

namespace CalibrationSidebar

/-- `getRequiredPoints` (CalibrationSidebar.tsx lines 64-71). -/
def getRequiredPoints : CalibrationMode → ℕ
  | .awayGoal => 8
  | .homeGoal => 8
  | .centerCircle => 7

end CalibrationSidebar

namespace FieldCalibration

/-- The `points` instruction lists of `CALIBRATION_CONFIGS`
(FieldCalibration.tsx lines 27-75); `totalPoints = config.points.length`. -/
def configPoints : CalibrationMode → List String
  | .awayGoal =>
      ["Top-left corner of small goal area",
       "Top-right corner of small goal area",
       "Bottom-left corner of small goal area",
       "Bottom-right corner of small goal area",
       "Top-left corner of large goal area",
       "Top-right corner of large goal area",
       "Bottom-left corner of large goal area",
       "Bottom-right corner of large goal area"]
  | .homeGoal =>
      ["Top-left corner of small goal area",
       "Top-right corner of small goal area",
       "Bottom-left corner of small goal area",
       "Bottom-right corner of small goal area",
       "Top-left corner of large goal area",
       "Top-right corner of large goal area",
       "Bottom-left corner of large goal area",
       "Bottom-right corner of large goal area"]
  | .centerCircle =>
      ["Center Spot of the pitch",
       "Top of the Center Circle (closest to a goal)",
       "Right point of the Center Circle (on halfway line)",
       "Bottom of the Center Circle (furthest from a goal)",
       "Left point of the Center Circle (on halfway line)",
       "Midpoint of the Top Touchline",
       "Midpoint of the Bottom Touchline"]

/-- The point-list effect of `handleCanvasClick` (FieldCalibration.tsx
lines 92-107): when `isCalibrationComplete` (the accumulated count has
reached `totalPoints`) the click is ignored; otherwise the click is
forwarded to `onPointClick`, i.e. to `handleCalibrationPointClick` in the
page that owns the state.  (The toast and `onComplete` side effects are
display/control wiring; the component is not mounted by Index.tsx.) -/
def handleCanvasClick (x y : ℚ) (s : Index.SessionState) :
    Index.SessionState :=
  if (configPoints s.calibrationMode).length ≤ s.calibrationPoints.length
  then s
  else Index.handleCalibrationPointClick x y s

end FieldCalibration

end PlayDrawTrack


namespace PlayDrawTrack

open Homography

/-! ## Supporting lemmas -/

/-- `buildA` only reads the first `src.length` image points, so appending
extra image points does not change the assembled system. -/
theorem buildA_append_extra (src dst extra : List Point)
    (hle : src.length ≤ dst.length) :
    buildA src (dst ++ extra) = buildA src dst := by
  unfold buildA
  apply List.foldl_ext
  intro A i hi
  rw [List.getD_append]
  exact lt_of_lt_of_le (List.mem_range.1 hi) hle

/-! ## List-access toolkit -/

theorem getv_set_self (v : Vec) (k : ℕ) (q : ℚ) (hk : k < v.length) :
    getv (v.set k q) k = q := by
  simp [getv, hk]

theorem getv_set_ne (v : Vec) (k j : ℕ) (q : ℚ) (h : k ≠ j) :
    getv (v.set k q) j = getv v j := by
  simp [getv, List.getElem?_set_ne h]

theorem getr_set_self (M : Mat) (k : ℕ) (row : Vec) (hk : k < M.length) :
    getr (M.set k row) k = row := by
  simp [getr, hk]

theorem getr_set_ne (M : Mat) (k j : ℕ) (row : Vec) (h : k ≠ j) :
    getr (M.set k row) j = getr M j := by
  simp [getr, List.getElem?_set_ne h]

theorem getv_of_le (v : Vec) (j : ℕ) (h : v.length ≤ j) : getv v j = 0 := by
  simp [getv, List.getElem?_eq_none h]

theorem getr_of_le (M : Mat) (j : ℕ) (h : M.length ≤ j) : getr M j = [] := by
  simp [getr, List.getElem?_eq_none h]

/-- The tolerance is positive. -/
theorem tol_pos : 0 < tol := by norm_num [tol]

/-- A rational whose magnitude is not below the tolerance is nonzero. -/
theorem ne_zero_of_not_abs_lt_tol {q : ℚ} (hq : ¬ |q| < tol) : q ≠ 0 := by
  intro h0
  exact hq (by rw [h0, abs_zero]; exact tol_pos)

theorem getv_eq_getElem (v : Vec) (j : ℕ) (h : j < v.length) : getv v j = v[j] := by
  simp [getv, List.getElem?_eq_getElem h]

/-! ## Swap lemmas -/

theorem swapVec_length (b : Vec) (i j : ℕ) : (swapVec b i j).length = b.length := by
  simp [Homography.swapVec]

theorem swapRows_length (M : Mat) (i j : ℕ) :
    (swapRows M i j).length = M.length := by
  simp [Homography.swapRows]

theorem getv_swapVec_fst (b : Vec) (i j : ℕ) (hi : i < b.length) :
    getv (swapVec b i j) i = getv b j := by
  unfold Homography.swapVec
  by_cases hij : j = i
  · subst hij
    rw [getv_set_self _ _ _ (by simpa using hi)]
  · rw [getv_set_ne _ _ _ _ hij, getv_set_self _ _ _ hi]

theorem getv_swapVec_snd (b : Vec) (i j : ℕ) (hj : j < b.length) :
    getv (swapVec b i j) j = getv b i := by
  unfold Homography.swapVec
  rw [getv_set_self _ _ _ (by simpa using hj)]

theorem getv_swapVec_other (b : Vec) (i j r : ℕ) (hri : r ≠ i) (hrj : r ≠ j) :
    getv (swapVec b i j) r = getv b r := by
  unfold Homography.swapVec
  rw [getv_set_ne _ _ _ _ (Ne.symm hrj), getv_set_ne _ _ _ _ (Ne.symm hri)]

theorem getr_swapRows_fst (M : Mat) (i j : ℕ) (hi : i < M.length) :
    getr (swapRows M i j) i = getr M j := by
  unfold Homography.swapRows
  by_cases hij : j = i
  · subst hij
    rw [getr_set_self _ _ _ (by simpa using hi)]
  · rw [getr_set_ne _ _ _ _ hij, getr_set_self _ _ _ hi]

theorem getr_swapRows_snd (M : Mat) (i j : ℕ) (hj : j < M.length) :
    getr (swapRows M i j) j = getr M i := by
  unfold Homography.swapRows
  rw [getr_set_self _ _ _ (by simpa using hj)]

theorem getr_swapRows_other (M : Mat) (i j r : ℕ) (hri : r ≠ i) (hrj : r ≠ j) :
    getr (swapRows M i j) r = getr M r := by
  unfold Homography.swapRows
  rw [getr_set_ne _ _ _ _ (Ne.symm hrj), getr_set_ne _ _ _ _ (Ne.symm hri)]

/-! ## Pivot-search bounds -/

theorem foldl_choice {P : ℕ → Prop} (c : ℕ → ℕ → Prop) [∀ a b, Decidable (c a b)] :
    ∀ (l : List ℕ) (a : ℕ), P a → (∀ j ∈ l, P j) →
      P (l.foldl (fun mx j => if c mx j then j else mx) a) := by
  intro l
  induction l with
  | nil => intro a ha _; exact ha
  | cons hd tl ih =>
    intro a ha hl
    simp only [List.foldl_cons]
    apply ih
    · by_cases hc : c a hd
      · simpa [hc] using hl hd (by simp)
      · simpa [hc] using ha
    · intro j hj; exact hl j (by simp [hj])

theorem findPivot_ge (M : Mat) (i : ℕ) : i ≤ findPivot M i := by
  unfold Homography.findPivot
  apply foldl_choice (P := fun j => i ≤ j)
  · exact le_refl i
  · intro j hj
    have := List.mem_range'_1.1 hj
    omega

theorem findPivot_lt (M : Mat) (i : ℕ) (hi : i < M.length) :
    findPivot M i < M.length := by
  unfold Homography.findPivot
  apply foldl_choice (P := fun j => j < M.length)
  · exact hi
  · intro j hj
    have := List.mem_range'_1.1 hj
    omega

/-! ## Sum and dot-product lemmas -/

theorem sum_map_sub (l : List ℕ) (fg fh : ℕ → ℚ) :
    (l.map fun k => fg k - fh k).sum = (l.map fg).sum - (l.map fh).sum := by
  induction l with
  | nil => simp
  | cons hd tl ih => simp [ih]; ring

theorem dot8_sub_smul (r1 r2 pr x : Vec) (f : ℚ)
    (hpt : ∀ c, c < 8 → getv r1 c = getv r2 c - getv pr c * f) :
    dot8 r1 x = dot8 r2 x - f * dot8 pr x := by
  unfold Homography.dot8
  have h1 : ((List.range 8).map fun k => getv r1 k * getv x k) =
      (List.range 8).map fun k =>
        getv r2 k * getv x k - f * (getv pr k * getv x k) := by
    apply List.map_congr_left
    intro k hk
    rw [hpt k (List.mem_range.1 hk)]
    ring
  rw [h1, sum_map_sub, List.sum_map_mul_left]

theorem dot8_split (r x : Vec) (k : ℕ) (hk : k < 8)
    (hzero : ∀ c, c < k → getv r c = 0) :
    dot8 r x = getv r k * getv x k +
      ((List.range' (k + 1) (7 - k)).map fun j => getv r j * getv x j).sum := by
  unfold Homography.dot8
  have hsplit : List.range 8 = List.range' 0 k ++ (k :: List.range' (k + 1) (7 - k)) := by
    rw [List.range_eq_range']
    rw [show (8 : ℕ) = 8 - k + k by omega]
    rw [← List.range'_append 0 k (8 - k) 1]
    simp only [one_mul, Nat.zero_add]
    congr 1
    rw [show 8 - k = (7 - k) + 1 by omega, List.range'_succ]
  rw [hsplit]
  rw [List.map_append, List.sum_append, List.map_cons, List.sum_cons]
  have hz : ((List.range' 0 k).map fun j => getv r j * getv x j).sum = 0 := by
    apply List.sum_eq_zero
    intro q hq
    obtain ⟨j, hj, rfl⟩ := List.mem_map.1 hq
    have := List.mem_range'_1.1 hj
    rw [hzero j (by omega)]
    ring
  rw [hz]
  ring

/-! ## Row-update fold lemmas -/

theorem rowfold_length (pr : Vec) (f : ℚ) :
    ∀ (l : List ℕ) (r : Vec),
      (l.foldl (fun r2 k => r2.set k (getv r2 k - getv pr k * f)) r).length =
        r.length := by
  intro l
  induction l with
  | nil => intro r; rfl
  | cons hd tl ih => intro r; rw [List.foldl_cons, ih]; simp

theorem rowfold_getv_outside (pr : Vec) (f : ℚ) :
    ∀ (n k : ℕ) (r : Vec) (j : ℕ), j < k ∨ k + n ≤ j →
      getv ((List.range' k n).foldl
        (fun r2 k2 => r2.set k2 (getv r2 k2 - getv pr k2 * f)) r) j = getv r j := by
  intro n
  induction n with
  | zero => intro k r j _; rfl
  | succ n ih =>
    intro k r j hj
    rw [List.range'_succ, List.foldl_cons]
    rw [ih (k + 1) _ j (by omega)]
    exact getv_set_ne _ _ _ _ (by omega)

theorem rowfold_getv_inside (pr : Vec) (f : ℚ) :
    ∀ (n k : ℕ) (r : Vec) (j : ℕ), k ≤ j → j < k + n → j < r.length →
      getv ((List.range' k n).foldl
        (fun r2 k2 => r2.set k2 (getv r2 k2 - getv pr k2 * f)) r) j =
        getv r j - getv pr j * f := by
  intro n
  induction n with
  | zero => intro k r j _ h2 _; omega
  | succ n ih =>
    intro k r j hj1 hj2 hj3
    rw [List.range'_succ, List.foldl_cons]
    by_cases hjk : j = k
    · subst hjk
      rw [rowfold_getv_outside pr f n (j + 1) _ j (by omega)]
      exact getv_set_self _ _ _ hj3
    · rw [ih (k + 1) _ j (by omega) (by omega) (by simpa using hj3)]
      rw [getv_set_ne _ _ _ _ (fun hh => hjk hh.symm)]

/-! ## The inner elimination loop -/

/-- Effect of the inner loop of `elimStep`, which eliminates column `i`
from the rows in the window `[k, k+n)`, on an 8-row, 8-column system with
`m = 9`: sizes are preserved, any solution of the system is preserved, the
below-diagonal zeros in the first `i` columns are preserved, rows outside
the window are untouched, and every row in the window gets a zero in
column `i`. -/
theorem elimInner_spec (i : ℕ) (x : Vec) (hi : i < 8) :
    ∀ (n k : ℕ) (M2 : Mat) (b2 : Vec),
      i < k → k + n ≤ 8 → M2.length = 8 → b2.length = 8 →
      (∀ r, r < 8 → (getr M2 r).length = 8) →
      sat8 M2 b2 x → lowZero i M2 → getv (getr M2 i) i ≠ 0 →
      (fun res : Mat × Vec =>
        res.1.length = 8 ∧ res.2.length = 8 ∧
        (∀ r, r < 8 → (getr res.1 r).length = 8) ∧
        sat8 res.1 res.2 x ∧ lowZero i res.1 ∧
        (∀ r, r < k ∨ k + n ≤ r →
          getr res.1 r = getr M2 r ∧ getv res.2 r = getv b2 r) ∧
        (∀ r, k ≤ r → r < k + n → getv (getr res.1 r) i = 0))
      ((List.range' k n).foldl (fun Mb2 j =>
          let f := getv (getr Mb2.1 j) i / getv (getr Mb2.1 i) i
          let newRow := (List.range' i (9 - 1 - i)).foldl
            (fun r k2 => r.set k2 (getv r k2 - getv (getr Mb2.1 i) k2 * f))
            (getr Mb2.1 j)
          (Mb2.1.set j newRow,
           Mb2.2.set j (getv Mb2.2 j - getv Mb2.2 i * f))) (M2, b2)) := by
  intro n
  induction n with
  | zero =>
    intro k M2 b2 hik hkn hM hb hrows hsat hlow hpiv
    exact ⟨hM, hb, hrows, hsat, hlow, fun r _ => ⟨rfl, rfl⟩,
      fun r h1 h2 => by omega⟩
  | succ n ih =>
    intro k M2 b2 hik hkn hM hb hrows hsat hlow hpiv
    have hk8 : k < 8 := by omega
    have hrowklen : (getr M2 k).length = 8 := hrows k hk8
    have hrowilen : (getr M2 i).length = 8 := hrows i (by omega)
    -- the pivot-row entries left of column i are zero
    have hprz : ∀ c, c < i → getv (getr M2 i) c = 0 := fun c hc => hlow i c hc hc
    -- pointwise description of the updated row k
    have hnr_all : ∀ c, c < 8 →
        getv ((List.range' i (9 - 1 - i)).foldl
          (fun r k2 => r.set k2 (getv r k2 - getv (getr M2 i) k2 *
            (getv (getr M2 k) i / getv (getr M2 i) i))) (getr M2 k)) c =
        getv (getr M2 k) c - getv (getr M2 i) c *
          (getv (getr M2 k) i / getv (getr M2 i) i) := by
      intro c hc
      by_cases hci : c < i
      · rw [rowfold_getv_outside _ _ _ _ _ c (Or.inl hci), hprz c hci]
        ring
      · rw [rowfold_getv_inside _ _ (9 - 1 - i) i _ c (by omega) (by omega)
          (by rw [hrowklen]; omega)]
    have hnr_len : ((List.range' i (9 - 1 - i)).foldl
        (fun r k2 => r.set k2 (getv r k2 - getv (getr M2 i) k2 *
          (getv (getr M2 k) i / getv (getr M2 i) i))) (getr M2 k)).length = 8 := by
      rw [rowfold_length, hrowklen]
    have hnr_i : getv ((List.range' i (9 - 1 - i)).foldl
        (fun r k2 => r.set k2 (getv r k2 - getv (getr M2 i) k2 *
          (getv (getr M2 k) i / getv (getr M2 i) i))) (getr M2 k)) i = 0 := by
      rw [hnr_all i hi, mul_comm, div_mul_cancel₀ _ hpiv, sub_self]
    have hnr_dot : dot8 ((List.range' i (9 - 1 - i)).foldl
        (fun r k2 => r.set k2 (getv r k2 - getv (getr M2 i) k2 *
          (getv (getr M2 k) i / getv (getr M2 i) i))) (getr M2 k)) x =
        getv b2 k - getv b2 i *
          (getv (getr M2 k) i / getv (getr M2 i) i) := by
      rw [dot8_sub_smul _ (getr M2 k) (getr M2 i) x _ hnr_all]
      rw [hsat k (by omega), hsat i (by omega)]
      ring
    have key := ih (k + 1)
      (M2.set k ((List.range' i (9 - 1 - i)).foldl
        (fun r k2 => r.set k2 (getv r k2 - getv (getr M2 i) k2 *
          (getv (getr M2 k) i / getv (getr M2 i) i))) (getr M2 k)))
      (b2.set k (getv b2 k - getv b2 i *
        (getv (getr M2 k) i / getv (getr M2 i) i)))
      (by omega) (by omega)
      (by rw [List.length_set]; exact hM)
      (by rw [List.length_set]; exact hb)
      (by
        intro r hr
        by_cases hrk : r = k
        · subst hrk
          rw [getr_set_self _ _ _ (by omega)]
          exact hnr_len
        · rw [getr_set_ne _ _ _ _ (fun hh => hrk hh.symm)]
          exact hrows r hr)
      (by
        intro r hr
        rw [List.length_set] at hr
        by_cases hrk : r = k
        · subst hrk
          rw [getr_set_self _ _ _ (by omega), getv_set_self _ _ _ (by omega)]
          exact hnr_dot
        · rw [getr_set_ne _ _ _ _ (fun hh => hrk hh.symm),
            getv_set_ne _ _ _ _ (fun hh => hrk hh.symm)]
          exact hsat r hr)
      (by
        intro r c hc hcr
        by_cases hrk : r = k
        · subst hrk
          rw [getr_set_self _ _ _ (by omega), hnr_all c (by omega),
            hprz c hc, hlow r c hc (by omega)]
          ring
        · rw [getr_set_ne _ _ _ _ (fun hh => hrk hh.symm)]
          exact hlow r c hc hcr)
      (by
        rw [getr_set_ne _ _ _ _ (by omega)]
        exact hpiv)
    obtain ⟨k1, k2, k3, k4, k5, k6, k7⟩ := key
    rw [List.range'_succ, List.foldl_cons]
    refine ⟨k1, k2, k3, k4, k5, ?_, ?_⟩
    · intro r hr
      obtain ⟨e1, e2⟩ := k6 r (by omega)
      exact ⟨e1.trans (getr_set_ne _ _ _ _ (by omega)),
        e2.trans (getv_set_ne _ _ _ _ (by omega))⟩
    · intro r h1 h2
      by_cases hrk : r = k
      · subst hrk
        obtain ⟨e1, _⟩ := k6 r (Or.inl (by omega))
        have e1' := congrArg (fun row => getv row i) e1
        simp only at e1'
        rw [getr_set_self _ _ _ (by omega)] at e1'
        exact e1'.trans hnr_i
      · exact k7 r (by omega) (by omega)

/-- Effect of one full outer elimination step (`elimStep 9`) at column `i`
when the inspected pivot is at least the tolerance: sizes and solutions
are preserved, the below-diagonal zeros extend to column `i`, the rows
above `i` are untouched, and row `i` keeps the inspected pivot on its
diagonal. -/
theorem elimStep_spec (i : ℕ) (x : Vec) (hi : i < 8) (M : Mat) (b : Vec)
    (hM : M.length = 8) (hb : b.length = 8)
    (hrows : ∀ r, r < 8 → (getr M r).length = 8)
    (hsat : sat8 M b x) (hlow : lowZero i M)
    (hpiv : tol ≤ |pivotAt (M, b) i|) :
    (elimStep 9 (M, b) i).1.length = 8 ∧
    (elimStep 9 (M, b) i).2.length = 8 ∧
    (∀ r, r < 8 → (getr (elimStep 9 (M, b) i).1 r).length = 8) ∧
    sat8 (elimStep 9 (M, b) i).1 (elimStep 9 (M, b) i).2 x ∧
    lowZero (i + 1) (elimStep 9 (M, b) i).1 ∧
    (∀ r, r < i → getr (elimStep 9 (M, b) i).1 r = getr M r) ∧
    getv (getr (elimStep 9 (M, b) i).1 i) i = pivotAt (M, b) i := by
  have hmx2 : findPivot M i < 8 := by
    have := findPivot_lt M i (by omega)
    omega
  have hmx1 : i ≤ findPivot M i := findPivot_ge M i
  have hM1len : (swapRows M i (findPivot M i)).length = 8 := by
    rw [swapRows_length]; exact hM
  have hb1len : (swapVec b i (findPivot M i)).length = 8 := by
    rw [swapVec_length]; exact hb
  have hM1rows : ∀ r, r < 8 →
      (getr (swapRows M i (findPivot M i)) r).length = 8 := by
    intro r hr
    by_cases hri : r = i
    · subst hri
      rw [getr_swapRows_fst _ _ _ (by omega)]
      exact hrows _ hmx2
    · by_cases hrm : r = findPivot M i
      · subst hrm
        rw [getr_swapRows_snd _ _ _ (by omega)]
        exact hrows i (by omega)
      · rw [getr_swapRows_other _ _ _ _ hri hrm]
        exact hrows r hr
  have hsat1 : sat8 (swapRows M i (findPivot M i))
      (swapVec b i (findPivot M i)) x := by
    intro r hr
    rw [hM1len] at hr
    by_cases hri : r = i
    · subst hri
      rw [getr_swapRows_fst _ _ _ (by omega), getv_swapVec_fst _ _ _ (by omega)]
      exact hsat _ (by omega)
    · by_cases hrm : r = findPivot M i
      · subst hrm
        rw [getr_swapRows_snd _ _ _ (by omega), getv_swapVec_snd _ _ _ (by omega)]
        exact hsat i (by omega)
      · rw [getr_swapRows_other _ _ _ _ hri hrm,
          getv_swapVec_other _ _ _ _ hri hrm]
        exact hsat r (by omega)
  have hlow1 : lowZero i (swapRows M i (findPivot M i)) := by
    intro r c hc hcr
    by_cases hri : r = i
    · subst hri
      rw [getr_swapRows_fst _ _ _ (by omega)]
      exact hlow _ c hc (by omega)
    · by_cases hrm : r = findPivot M i
      · subst hrm
        rw [getr_swapRows_snd _ _ _ (by omega)]
        exact hlow i c hc hc
      · rw [getr_swapRows_other _ _ _ _ hri hrm]
        exact hlow r c hc hcr
  have hpiveq : getv (getr (swapRows M i (findPivot M i)) i) i =
      pivotAt (M, b) i := rfl
  have hpivtol : tol ≤ |getv (getr (swapRows M i (findPivot M i)) i) i| := by
    rw [hpiveq]; exact hpiv
  have hpivne : getv (getr (swapRows M i (findPivot M i)) i) i ≠ 0 := by
    intro h0
    rw [h0, abs_zero] at hpivtol
    exact absurd hpivtol (not_le.2 tol_pos)
  have hcond : ¬ |getv (getr (swapRows M i (findPivot M i)) i) i| < tol :=
    not_lt.2 hpivtol
  have hstep : elimStep 9 (M, b) i =
      (List.range' (i + 1) (8 - (i + 1))).foldl (fun Mb2 j =>
          let f := getv (getr Mb2.1 j) i / getv (getr Mb2.1 i) i
          let newRow := (List.range' i (9 - 1 - i)).foldl
            (fun r k2 => r.set k2 (getv r k2 - getv (getr Mb2.1 i) k2 * f))
            (getr Mb2.1 j)
          (Mb2.1.set j newRow,
           Mb2.2.set j (getv Mb2.2 j - getv Mb2.2 i * f)))
        (swapRows M i (findPivot M i), swapVec b i (findPivot M i)) := by
    simp only [Homography.elimStep]
    rw [if_neg hcond, hM1len]
  have inner := elimInner_spec i x hi (8 - (i + 1)) (i + 1)
    (swapRows M i (findPivot M i)) (swapVec b i (findPivot M i))
    (by omega) (by omega) hM1len hb1len hM1rows hsat1 hlow1 hpivne
  obtain ⟨n1, n2, n3, n4, n5, n6, n7⟩ := inner
  rw [hstep]
  refine ⟨n1, n2, n3, n4, ?_, ?_, ?_⟩
  · intro r c hc hcr
    by_cases hci : c < i
    · exact n5 r c hci hcr
    · have hci' : c = i := by omega
      subst hci'
      by_cases hr8 : r < 8
      · exact n7 r (by omega) (by omega)
      · rw [getr_of_le _ _ (by omega)]
        rfl
  · intro r hr
    obtain ⟨e1, _⟩ := n6 r (Or.inl (by omega))
    refine e1.trans ?_
    exact getr_swapRows_other _ _ _ _ (by omega) (by omega)
  · obtain ⟨e1, _⟩ := n6 i (Or.inl (by omega))
    have e1' := congrArg (fun row => getv row i) e1
    simp only at e1'
    exact e1'.trans hpiveq

theorem getr_map (f : Vec → Vec) (A : Mat) (r : ℕ) (h : r < A.length) :
    getr (A.map f) r = f (getr A r) := by
  unfold getr
  rw [List.getD_eq_getElem?_getD, List.getD_eq_getElem?_getD, List.getElem?_map,
    List.getElem?_eq_getElem h]
  rfl

theorem getv_map_row (f : Vec → ℚ) (A : Mat) (r : ℕ) (h : r < A.length) :
    getv (A.map f) r = f (getr A r) := by
  unfold getv getr
  rw [List.getD_eq_getElem?_getD, List.getD_eq_getElem?_getD, List.getElem?_map,
    List.getElem?_eq_getElem h]
  rfl

/-! ## The forward elimination phase -/

/-- Invariants established by the first `t` outer elimination steps of
`solve` on an 8x8 system, assuming every inspected pivot so far had
magnitude at least the tolerance: sizes are stable, every solution is
preserved, the matrix is triangular in its first `t` columns, and the
first `t` diagonal entries keep their inspected (large enough) pivots. -/
theorem elim_phase (M0 : Mat) (b0 : Vec) (x : Vec)
    (hM : M0.length = 8) (hb : b0.length = 8)
    (hrows : ∀ r, r < 8 → (getr M0 r).length = 8)
    (hsat : sat8 M0 b0 x)
    (hpivots : ∀ t, t < 8 →
      tol ≤ |pivotAt ((List.range t).foldl (elimStep 9) (M0, b0)) t|) :
    ∀ t, t ≤ 8 →
      ((List.range t).foldl (elimStep 9) (M0, b0)).1.length = 8 ∧
      ((List.range t).foldl (elimStep 9) (M0, b0)).2.length = 8 ∧
      (∀ r, r < 8 →
        (getr ((List.range t).foldl (elimStep 9) (M0, b0)).1 r).length = 8) ∧
      sat8 ((List.range t).foldl (elimStep 9) (M0, b0)).1
        ((List.range t).foldl (elimStep 9) (M0, b0)).2 x ∧
      lowZero t ((List.range t).foldl (elimStep 9) (M0, b0)).1 ∧
      (∀ r, r < t →
        tol ≤ |getv (getr ((List.range t).foldl (elimStep 9) (M0, b0)).1 r) r|) := by
  intro t
  induction t with
  | zero =>
    intro _
    exact ⟨hM, hb, hrows, hsat, fun r c hc hcr => by omega, fun r hr => by omega⟩
  | succ t ih =>
    intro ht
    obtain ⟨i1, i2, i3, i4, i5, i6⟩ := ih (by omega)
    have heta : (((List.range t).foldl (elimStep 9) (M0, b0)).1,
        ((List.range t).foldl (elimStep 9) (M0, b0)).2) =
      (List.range t).foldl (elimStep 9) (M0, b0) := rfl
    have hstep := elimStep_spec t x (by omega)
      ((List.range t).foldl (elimStep 9) (M0, b0)).1
      ((List.range t).foldl (elimStep 9) (M0, b0)).2
      i1 i2 i3 i4 i5 (by rw [heta]; exact hpivots t (by omega))
    obtain ⟨s1, s2, s3, s4, s5, s6, s7⟩ := hstep
    rw [heta] at s1 s2 s3 s4 s5 s6 s7
    have hfold : (List.range (t + 1)).foldl (elimStep 9) (M0, b0) =
        elimStep 9 ((List.range t).foldl (elimStep 9) (M0, b0)) t := by
      rw [List.range_succ, List.foldl_append, List.foldl_cons, List.foldl_nil]
    rw [hfold]
    refine ⟨s1, s2, s3, s4, s5, ?_⟩
    intro r hr
    by_cases hrt : r = t
    · subst hrt
      rw [s7]
      exact hpivots r (by omega)
    · rw [s6 r (by omega)]
      exact i6 r (by omega)

/-- The matrix-vector component of the combined fold used by
`elimAllPivotsOk` agrees with the plain elimination fold. -/
theorem pairFold_fst :
    ∀ (l : List ℕ) (st0 : Mat × Vec) (bl : Bool),
      ((l.foldl (fun st i => (elimStep 9 st.1 i,
          st.2 && decide (tol ≤ |pivotAt st.1 i|))) (st0, bl)).1)
        = l.foldl (elimStep 9) st0 := by
  intro l
  induction l with
  | nil => intro st0 bl; rfl
  | cons hd tl ih =>
    intro st0 bl
    simp only [List.foldl_cons]
    exact ih _ _

/-- If the combined fold of `elimAllPivotsOk` ends with flag `true`, every
inspected pivot along the elimination was at least the tolerance. -/
theorem pairFold_ok (st0 : Mat × Vec) :
    ∀ (nn : ℕ),
      ((List.range nn).foldl (fun st i => (elimStep 9 st.1 i,
          st.2 && decide (tol ≤ |pivotAt st.1 i|))) (st0, true)).2 = true →
      ∀ t, t < nn → tol ≤ |pivotAt ((List.range t).foldl (elimStep 9) st0) t| := by
  intro nn
  induction nn with
  | zero => intro _ t ht; omega
  | succ nn ih =>
    intro hok t ht
    simp only [List.range_succ, List.foldl_append, List.foldl_cons,
      List.foldl_nil, Bool.and_eq_true, decide_eq_true_eq] at hok
    by_cases htn : t < nn
    · exact ih hok.1 t htn
    · have htn' : t = nn := by omega
      subst htn'
      have hp := hok.2
      rwa [pairFold_fst (List.range t) st0 true] at hp

/-! ## Back substitution -/

/-- On a triangular 8x8 system with large-enough diagonal, the
back-substitution loop of `solve` reconstructs the (unique) solution
exactly: starting from any vector that already agrees with the solution
above position `k`, processing positions `k-1, ..., 0` yields the
solution itself. -/
theorem backsub_exact (M2 : Mat) (b2 : Vec) (h0 : Vec)
    (hM : M2.length = 8) (hlen0 : h0.length = 8)
    (hlow : lowZero 8 M2)
    (hdiag : ∀ r, r < 8 → tol ≤ |getv (getr M2 r) r|)
    (hsat : sat8 M2 b2 h0) :
    ∀ k, k ≤ 8 → ∀ x0 : Vec, x0.length = 8 →
      (∀ j, k ≤ j → getv x0 j = getv h0 j) →
      ((List.range k).reverse.foldl (backStep M2 b2 9) x0) = h0 := by
  intro k
  induction k with
  | zero =>
    intro _ x0 hx0len hagree
    simp only [List.range_zero, List.reverse_nil, List.foldl_nil]
    apply List.ext_getElem (by rw [hx0len, hlen0])
    intro j hj1 hj2
    have hj := hagree j (by omega)
    rwa [getv_eq_getElem _ _ hj1, getv_eq_getElem _ _ hj2] at hj
  | succ k ih =>
    intro hk x0 hx0len hagree
    have hrev : (List.range (k + 1)).reverse = k :: (List.range k).reverse := by
      rw [List.range_succ, List.reverse_append]
      rfl
    rw [hrev, List.foldl_cons]
    have hcond : ¬ |getv (getr M2 k) k| < tol := not_lt.2 (hdiag k (by omega))
    have hbs : backStep M2 b2 9 x0 k =
        x0.set k ((getv b2 k - ((List.range' (k + 1) (9 - 1 - (k + 1))).map
          (fun j => getv (getr M2 k) j * getv x0 j)).sum) /
          getv (getr M2 k) k) := by
      unfold Homography.backStep
      rw [if_neg hcond]
    rw [hbs]
    apply ih (by omega)
    · rw [List.length_set]
      exact hx0len
    · intro j hj
      by_cases hjk : j = k
      · subst hjk
        rw [getv_set_self _ _ _ (by omega)]
        have hsum : ((List.range' (j + 1) (9 - 1 - (j + 1))).map
            (fun j2 => getv (getr M2 j) j2 * getv x0 j2)).sum =
            ((List.range' (j + 1) (7 - j)).map
              (fun j2 => getv (getr M2 j) j2 * getv h0 j2)).sum := by
          rw [show 9 - 1 - (j + 1) = 7 - j by omega]
          congr 1
          apply List.map_congr_left
          intro j2 hj2
          have := List.mem_range'_1.1 hj2
          rw [hagree j2 (by omega)]
        rw [hsum]
        have hrow := hsat j (by omega)
        rw [dot8_split (getr M2 j) h0 j (by omega)
          (fun c hc => hlow j c (by omega) hc)] at hrow
        have hdne : getv (getr M2 j) j ≠ 0 := by
          intro h00
          have hd := hdiag j (by omega)
          rw [h00, abs_zero] at hd
          exact absurd hd (not_le.2 tol_pos)
        rw [div_eq_iff hdne]
        linear_combination -hrow
      · rw [getv_set_ne _ _ _ _ (fun hh => hjk hh.symm)]
        exact hagree j (by omega)

/-- `Homography.solve`, on an 8-row, 9-column system all of whose
inspected pivots stay at or above the tolerance, returns exactly the
solution of the system (the vector `h0` satisfying all 8 rows). -/
theorem solve_exact (A : Mat) (h0 : Vec)
    (hA : A.length = 8) (hm : (A.headD []).length = 9)
    (hrows9 : ∀ r, r < 8 → (getr A r).length = 9)
    (hsat : sat8 (A.map fun row => row.take 8)
      (A.map fun row => -(getv row 8)) h0)
    (hok : elimAllPivotsOk A = true)
    (hlen0 : h0.length = 8) :
    solve A = h0 := by
  have h98 : (9 : ℕ) - 1 = 8 := rfl
  have h97 : (9 : ℕ) - 2 = 7 := rfl
  have hmin8 : min 8 ((9 : ℕ) - 1) = 8 := rfl
  have hmin7 : min 8 ((9 : ℕ) - 2) = 7 := rfl
  simp only [Homography.elimAllPivotsOk, hm, hA, h98, hmin8] at hok
  have hM0len : (A.map fun row => row.take 8).length = 8 := by
    rw [List.length_map]; exact hA
  have hb0len : (A.map fun row => -(getv row 8)).length = 8 := by
    rw [List.length_map]; exact hA
  have hrows0 : ∀ r, r < 8 →
      (getr (A.map fun row => row.take 8) r).length = 8 := by
    intro r hr
    rw [getr_map _ _ _ (by omega), List.length_take, hrows9 r hr]
    omega
  have hpivots := pairFold_ok
    (A.map fun row => row.take 8, A.map fun row => -(getv row 8)) 8 hok
  have hphase := elim_phase (A.map fun row => row.take 8)
    (A.map fun row => -(getv row 8)) h0 hM0len hb0len hrows0 hsat hpivots 8
    (le_refl 8)
  obtain ⟨p1, p2, p3, p4, p5, p6⟩ := hphase
  simp only [Homography.solve, hm, hA, h98, h97, hmin8, hmin7]
  exact backsub_exact _ _ h0 p1 hlen0 p5 p6 p4 8 (le_refl 8)
    (List.replicate 8 0) (by simp)
    (fun j hj => by
      rw [getv_of_le _ _ (by simpa using hj), getv_of_le _ _ (by omega)])

/-! ## Claim C1 -/

/-- Claim C1 (code evaluated at the failing input): on a degenerate
correspondence set of four duplicated points, `Homography.compute` does
not return a failure signal; `solve` silently skips every sub-tolerance
pivot and `compute` returns the singular matrix `[0,...,0,1]` (whose
inversion then fails). -/
theorem compute_duplicate_points_yields_matrix :
    Homography.compute [⟨0, 0⟩, ⟨0, 0⟩, ⟨0, 0⟩, ⟨0, 0⟩]
        [⟨0, 0⟩, ⟨0, 0⟩, ⟨0, 0⟩, ⟨0, 0⟩] = .matrix [0, 0, 0, 0, 0, 0, 0, 0, 1] ∧
    Homography.invert [0, 0, 0, 0, 0, 0, 0, 0, 1] = none := by decide

/-- Evaluation of `Homography.transform` on an explicit 9-entry list. -/
theorem transform_explicit (v0 v1 v2 v3 v4 v5 v6 v7 v8 x y : ℚ) :
    Homography.transform ⟨x, y⟩ (some [v0, v1, v2, v3, v4, v5, v6, v7, v8]) =
      if |v6 * x + v7 * y + v8| < tol then .atInfinity
      else .pt ⟨(v0 * x + v1 * y + v2) / (v6 * x + v7 * y + v8),
                (v3 * x + v4 * y + v5) / (v6 * x + v7 * y + v8)⟩ := by
  simp [Homography.transform, getv]

/-- Evaluation of `Homography.invert` on an explicit 9-entry list whose
determinant magnitude is at least the tolerance. -/
theorem invert_explicit (v0 v1 v2 v3 v4 v5 v6 v7 v8 : ℚ)
    (hdet : ¬ |v0 * (v4 * v8 - v7 * v5) - v1 * (v3 * v8 - v5 * v6)
        + v2 * (v3 * v7 - v4 * v6)| < tol) :
    Homography.invert [v0, v1, v2, v3, v4, v5, v6, v7, v8] =
      some [(v4 * v8 - v7 * v5) *
              (1 / (v0 * (v4 * v8 - v7 * v5) - v1 * (v3 * v8 - v5 * v6)
                + v2 * (v3 * v7 - v4 * v6))),
            (v2 * v7 - v1 * v8) *
              (1 / (v0 * (v4 * v8 - v7 * v5) - v1 * (v3 * v8 - v5 * v6)
                + v2 * (v3 * v7 - v4 * v6))),
            (v1 * v5 - v2 * v4) *
              (1 / (v0 * (v4 * v8 - v7 * v5) - v1 * (v3 * v8 - v5 * v6)
                + v2 * (v3 * v7 - v4 * v6))),
            (v5 * v6 - v3 * v8) *
              (1 / (v0 * (v4 * v8 - v7 * v5) - v1 * (v3 * v8 - v5 * v6)
                + v2 * (v3 * v7 - v4 * v6))),
            (v0 * v8 - v2 * v6) *
              (1 / (v0 * (v4 * v8 - v7 * v5) - v1 * (v3 * v8 - v5 * v6)
                + v2 * (v3 * v7 - v4 * v6))),
            (v3 * v2 - v0 * v5) *
              (1 / (v0 * (v4 * v8 - v7 * v5) - v1 * (v3 * v8 - v5 * v6)
                + v2 * (v3 * v7 - v4 * v6))),
            (v3 * v7 - v6 * v4) *
              (1 / (v0 * (v4 * v8 - v7 * v5) - v1 * (v3 * v8 - v5 * v6)
                + v2 * (v3 * v7 - v4 * v6))),
            (v6 * v1 - v0 * v7) *
              (1 / (v0 * (v4 * v8 - v7 * v5) - v1 * (v3 * v8 - v5 * v6)
                + v2 * (v3 * v7 - v4 * v6))),
            (v0 * v4 - v3 * v1) *
              (1 / (v0 * (v4 * v8 - v7 * v5) - v1 * (v3 * v8 - v5 * v6)
                + v2 * (v3 * v7 - v4 * v6)))] := by
  simp [Homography.invert, getv, hdet]

/-- Expansion of `dot8` on explicit 8-entry lists. -/
theorem dot8_explicit (e0 e1 e2 e3 e4 e5 e6 e7 x0 x1 x2 x3 x4 x5 x6 x7 : ℚ) :
    dot8 [e0, e1, e2, e3, e4, e5, e6, e7] [x0, x1, x2, x3, x4, x5, x6, x7] =
      e0 * x0 + e1 * x1 + e2 * x2 + e3 * x3 + e4 * x4 + e5 * x5 + e6 * x6 +
        e7 * x7 := by
  simp [Homography.dot8, getv, show List.range 8 = [0, 1, 2, 3, 4, 5, 6, 7] from rfl]
  ring

/-- What a finite result of `Homography.transform` on a 9-entry list says
about its inputs: the guard did not fire and the coordinates are the exact
perspective quotients. -/
theorem transform_pt_components (v0 v1 v2 v3 v4 v5 v6 v7 v8 x y X Y : ℚ)
    (ht : Homography.transform ⟨x, y⟩ (some [v0, v1, v2, v3, v4, v5, v6, v7, v8]) =
      .pt ⟨X, Y⟩) :
    ¬ |v6 * x + v7 * y + v8| < tol ∧
    X = (v0 * x + v1 * y + v2) / (v6 * x + v7 * y + v8) ∧
    Y = (v3 * x + v4 * y + v5) / (v6 * x + v7 * y + v8) := by
  rw [transform_explicit] at ht
  by_cases hc : |v6 * x + v7 * y + v8| < tol
  · rw [if_pos hc] at ht
    exact absurd ht (by simp)
  · rw [if_neg hc] at ht
    simp only [TransformResult.pt.injEq, Point.mk.injEq] at ht
    exact ⟨hc, ht.1.symm, ht.2.symm⟩

/-! ## Claim C2 -/

/-- Claim C2 (counterexample): all hypotheses of the claim hold for the
four pairwise-distinct, non-collinear reference points
`(0,0), (d,0), (0,d), (d,d)` with `d = 1e-5` and the invertible,
normalized matrix `H0 = [1,0,0, 0,1,0, 1,1,1]` whose images of the four
points are finite — yet `Homography.compute` (the solver having silently
skipped four sub-tolerance pivots) returns a different matrix, and the two
transforms disagree at the point `(1,1)`. -/
theorem compute_exact_recovery_counterexample :
    ((1 : ℚ) / 100000 ≠ 0) ∧
    (Homography.invert [1, 0, 0, 0, 1, 0, 1, 1, 1]).isSome = true ∧
    Homography.transform ⟨0, 0⟩ (some [1, 0, 0, 0, 1, 0, 1, 1, 1]) = .pt ⟨0, 0⟩ ∧
    Homography.transform ⟨1/100000, 0⟩ (some [1, 0, 0, 0, 1, 0, 1, 1, 1]) =
      .pt ⟨1/100001, 0⟩ ∧
    Homography.transform ⟨0, 1/100000⟩ (some [1, 0, 0, 0, 1, 0, 1, 1, 1]) =
      .pt ⟨0, 1/100001⟩ ∧
    Homography.transform ⟨1/100000, 1/100000⟩ (some [1, 0, 0, 0, 1, 0, 1, 1, 1]) =
      .pt ⟨1/100002, 1/100002⟩ ∧
    Homography.compute [⟨0, 0⟩, ⟨1/100000, 0⟩, ⟨0, 1/100000⟩, ⟨1/100000, 1/100000⟩]
        [⟨0, 0⟩, ⟨1/100001, 0⟩, ⟨0, 1/100001⟩, ⟨1/100002, 1/100002⟩] =
      .matrix [100000/100001, 0, 0, 0, 100000/100001, 0, 0, 0, 1] ∧
    Homography.transform ⟨1, 1⟩
        (some [100000/100001, 0, 0, 0, 100000/100001, 0, 0, 0, 1]) =
      .pt ⟨100000/100001, 100000/100001⟩ ∧
    Homography.transform ⟨1, 1⟩ (some [1, 0, 0, 0, 1, 0, 1, 1, 1]) =
      .pt ⟨1/3, 1/3⟩ ∧
    ((100000 : ℚ)/100001 ≠ 1/3) := by decide

/-- Claim C2 (amended): for any normalized matrix `H0 = [a,...,h,1]` and
any 4 reference points whose images under `H0` are finite, if every pivot
inspected during the forward elimination has magnitude at least the
1e-10 tolerance (so the solver never takes its silent skip branch), then
`Homography.compute` recovers `H0` exactly — hence its transform agrees
with that of `H0` at every point, not just the 4 inputs. -/
theorem compute_exact_recovery
    (p0x p0y p1x p1y p2x p2y p3x p3y q0x q0y q1x q1y q2x q2y q3x q3y
      a b c d e f g h : ℚ)
    (h0 : Homography.transform ⟨p0x, p0y⟩ (some [a, b, c, d, e, f, g, h, 1]) =
      .pt ⟨q0x, q0y⟩)
    (h1 : Homography.transform ⟨p1x, p1y⟩ (some [a, b, c, d, e, f, g, h, 1]) =
      .pt ⟨q1x, q1y⟩)
    (h2 : Homography.transform ⟨p2x, p2y⟩ (some [a, b, c, d, e, f, g, h, 1]) =
      .pt ⟨q2x, q2y⟩)
    (h3 : Homography.transform ⟨p3x, p3y⟩ (some [a, b, c, d, e, f, g, h, 1]) =
      .pt ⟨q3x, q3y⟩)
    (hok : elimAllPivotsOk (buildA [⟨p0x, p0y⟩, ⟨p1x, p1y⟩, ⟨p2x, p2y⟩, ⟨p3x, p3y⟩]
      [⟨q0x, q0y⟩, ⟨q1x, q1y⟩, ⟨q2x, q2y⟩, ⟨q3x, q3y⟩]) = true) :
    Homography.compute [⟨p0x, p0y⟩, ⟨p1x, p1y⟩, ⟨p2x, p2y⟩, ⟨p3x, p3y⟩]
        [⟨q0x, q0y⟩, ⟨q1x, q1y⟩, ⟨q2x, q2y⟩, ⟨q3x, q3y⟩] = .matrix [a, b, c, d, e, f, g, h, 1] ∧
    ∀ (p : Point) (hm : Vec),
      Homography.compute [⟨p0x, p0y⟩, ⟨p1x, p1y⟩, ⟨p2x, p2y⟩, ⟨p3x, p3y⟩]
        [⟨q0x, q0y⟩, ⟨q1x, q1y⟩, ⟨q2x, q2y⟩, ⟨q3x, q3y⟩] = .matrix hm →
      Homography.transform p (some hm) =
        Homography.transform p (some [a, b, c, d, e, f, g, h, 1]) := by
  obtain ⟨hw0, hX0, hY0⟩ := transform_pt_components a b c d e f g h 1 p0x p0y q0x q0y h0
  obtain ⟨hw1, hX1, hY1⟩ := transform_pt_components a b c d e f g h 1 p1x p1y q1x q1y h1
  obtain ⟨hw2, hX2, hY2⟩ := transform_pt_components a b c d e f g h 1 p2x p2y q2x q2y h2
  obtain ⟨hw3, hX3, hY3⟩ := transform_pt_components a b c d e f g h 1 p3x p3y q3x q3y h3
  have hw0ne := ne_zero_of_not_abs_lt_tol hw0
  have hw1ne := ne_zero_of_not_abs_lt_tol hw1
  have hw2ne := ne_zero_of_not_abs_lt_tol hw2
  have hw3ne := ne_zero_of_not_abs_lt_tol hw3
  have hsat : sat8
      ((buildA [⟨p0x, p0y⟩, ⟨p1x, p1y⟩, ⟨p2x, p2y⟩, ⟨p3x, p3y⟩]
        [⟨q0x, q0y⟩, ⟨q1x, q1y⟩, ⟨q2x, q2y⟩, ⟨q3x, q3y⟩]).map fun row => row.take 8)
      ((buildA [⟨p0x, p0y⟩, ⟨p1x, p1y⟩, ⟨p2x, p2y⟩, ⟨p3x, p3y⟩]
        [⟨q0x, q0y⟩, ⟨q1x, q1y⟩, ⟨q2x, q2y⟩, ⟨q3x, q3y⟩]).map fun row => -(getv row 8))
      [a, b, c, d, e, f, g, h] := by
    rw [show ((buildA [⟨p0x, p0y⟩, ⟨p1x, p1y⟩, ⟨p2x, p2y⟩, ⟨p3x, p3y⟩]
          [⟨q0x, q0y⟩, ⟨q1x, q1y⟩, ⟨q2x, q2y⟩, ⟨q3x, q3y⟩]).map fun row => row.take 8) =
        [[-p0x, -p0y, -1, 0, 0, 0, p0x * q0x, p0y * q0x],
         [0, 0, 0, -p0x, -p0y, -1, p0x * q0y, p0y * q0y],
         [-p1x, -p1y, -1, 0, 0, 0, p1x * q1x, p1y * q1x],
         [0, 0, 0, -p1x, -p1y, -1, p1x * q1y, p1y * q1y],
         [-p2x, -p2y, -1, 0, 0, 0, p2x * q2x, p2y * q2x],
         [0, 0, 0, -p2x, -p2y, -1, p2x * q2y, p2y * q2y],
         [-p3x, -p3y, -1, 0, 0, 0, p3x * q3x, p3y * q3x],
         [0, 0, 0, -p3x, -p3y, -1, p3x * q3y, p3y * q3y]] from rfl,
      show ((buildA [⟨p0x, p0y⟩, ⟨p1x, p1y⟩, ⟨p2x, p2y⟩, ⟨p3x, p3y⟩]
          [⟨q0x, q0y⟩, ⟨q1x, q1y⟩, ⟨q2x, q2y⟩, ⟨q3x, q3y⟩]).map fun row => -(getv row 8)) =
        [-q0x, -q0y, -q1x, -q1y, -q2x, -q2y, -q3x, -q3y] from rfl]
    intro r hr
    have hr8 : r < 8 := by simpa using hr
    interval_cases r
    · rw [show getr
            [[-p0x, -p0y, -1, 0, 0, 0, p0x * q0x, p0y * q0x],
         [0, 0, 0, -p0x, -p0y, -1, p0x * q0y, p0y * q0y],
         [-p1x, -p1y, -1, 0, 0, 0, p1x * q1x, p1y * q1x],
         [0, 0, 0, -p1x, -p1y, -1, p1x * q1y, p1y * q1y],
         [-p2x, -p2y, -1, 0, 0, 0, p2x * q2x, p2y * q2x],
         [0, 0, 0, -p2x, -p2y, -1, p2x * q2y, p2y * q2y],
         [-p3x, -p3y, -1, 0, 0, 0, p3x * q3x, p3y * q3x],
         [0, 0, 0, -p3x, -p3y, -1, p3x * q3y, p3y * q3y]] 0 = [-p0x, -p0y, -1, 0, 0, 0, p0x * q0x, p0y * q0x] from rfl,
          show getv [-q0x, -q0y, -q1x, -q1y, -q2x, -q2y, -q3x, -q3y] 0 = -q0x from rfl,
        dot8_explicit, hX0]
      field_simp
      ring
    · rw [show getr
            [[-p0x, -p0y, -1, 0, 0, 0, p0x * q0x, p0y * q0x],
         [0, 0, 0, -p0x, -p0y, -1, p0x * q0y, p0y * q0y],
         [-p1x, -p1y, -1, 0, 0, 0, p1x * q1x, p1y * q1x],
         [0, 0, 0, -p1x, -p1y, -1, p1x * q1y, p1y * q1y],
         [-p2x, -p2y, -1, 0, 0, 0, p2x * q2x, p2y * q2x],
         [0, 0, 0, -p2x, -p2y, -1, p2x * q2y, p2y * q2y],
         [-p3x, -p3y, -1, 0, 0, 0, p3x * q3x, p3y * q3x],
         [0, 0, 0, -p3x, -p3y, -1, p3x * q3y, p3y * q3y]] 1 = [0, 0, 0, -p0x, -p0y, -1, p0x * q0y, p0y * q0y] from rfl,
          show getv [-q0x, -q0y, -q1x, -q1y, -q2x, -q2y, -q3x, -q3y] 1 = -q0y from rfl,
        dot8_explicit, hY0]
      field_simp
      ring
    · rw [show getr
            [[-p0x, -p0y, -1, 0, 0, 0, p0x * q0x, p0y * q0x],
         [0, 0, 0, -p0x, -p0y, -1, p0x * q0y, p0y * q0y],
         [-p1x, -p1y, -1, 0, 0, 0, p1x * q1x, p1y * q1x],
         [0, 0, 0, -p1x, -p1y, -1, p1x * q1y, p1y * q1y],
         [-p2x, -p2y, -1, 0, 0, 0, p2x * q2x, p2y * q2x],
         [0, 0, 0, -p2x, -p2y, -1, p2x * q2y, p2y * q2y],
         [-p3x, -p3y, -1, 0, 0, 0, p3x * q3x, p3y * q3x],
         [0, 0, 0, -p3x, -p3y, -1, p3x * q3y, p3y * q3y]] 2 = [-p1x, -p1y, -1, 0, 0, 0, p1x * q1x, p1y * q1x] from rfl,
          show getv [-q0x, -q0y, -q1x, -q1y, -q2x, -q2y, -q3x, -q3y] 2 = -q1x from rfl,
        dot8_explicit, hX1]
      field_simp
      ring
    · rw [show getr
            [[-p0x, -p0y, -1, 0, 0, 0, p0x * q0x, p0y * q0x],
         [0, 0, 0, -p0x, -p0y, -1, p0x * q0y, p0y * q0y],
         [-p1x, -p1y, -1, 0, 0, 0, p1x * q1x, p1y * q1x],
         [0, 0, 0, -p1x, -p1y, -1, p1x * q1y, p1y * q1y],
         [-p2x, -p2y, -1, 0, 0, 0, p2x * q2x, p2y * q2x],
         [0, 0, 0, -p2x, -p2y, -1, p2x * q2y, p2y * q2y],
         [-p3x, -p3y, -1, 0, 0, 0, p3x * q3x, p3y * q3x],
         [0, 0, 0, -p3x, -p3y, -1, p3x * q3y, p3y * q3y]] 3 = [0, 0, 0, -p1x, -p1y, -1, p1x * q1y, p1y * q1y] from rfl,
          show getv [-q0x, -q0y, -q1x, -q1y, -q2x, -q2y, -q3x, -q3y] 3 = -q1y from rfl,
        dot8_explicit, hY1]
      field_simp
      ring
    · rw [show getr
            [[-p0x, -p0y, -1, 0, 0, 0, p0x * q0x, p0y * q0x],
         [0, 0, 0, -p0x, -p0y, -1, p0x * q0y, p0y * q0y],
         [-p1x, -p1y, -1, 0, 0, 0, p1x * q1x, p1y * q1x],
         [0, 0, 0, -p1x, -p1y, -1, p1x * q1y, p1y * q1y],
         [-p2x, -p2y, -1, 0, 0, 0, p2x * q2x, p2y * q2x],
         [0, 0, 0, -p2x, -p2y, -1, p2x * q2y, p2y * q2y],
         [-p3x, -p3y, -1, 0, 0, 0, p3x * q3x, p3y * q3x],
         [0, 0, 0, -p3x, -p3y, -1, p3x * q3y, p3y * q3y]] 4 = [-p2x, -p2y, -1, 0, 0, 0, p2x * q2x, p2y * q2x] from rfl,
          show getv [-q0x, -q0y, -q1x, -q1y, -q2x, -q2y, -q3x, -q3y] 4 = -q2x from rfl,
        dot8_explicit, hX2]
      field_simp
      ring
    · rw [show getr
            [[-p0x, -p0y, -1, 0, 0, 0, p0x * q0x, p0y * q0x],
         [0, 0, 0, -p0x, -p0y, -1, p0x * q0y, p0y * q0y],
         [-p1x, -p1y, -1, 0, 0, 0, p1x * q1x, p1y * q1x],
         [0, 0, 0, -p1x, -p1y, -1, p1x * q1y, p1y * q1y],
         [-p2x, -p2y, -1, 0, 0, 0, p2x * q2x, p2y * q2x],
         [0, 0, 0, -p2x, -p2y, -1, p2x * q2y, p2y * q2y],
         [-p3x, -p3y, -1, 0, 0, 0, p3x * q3x, p3y * q3x],
         [0, 0, 0, -p3x, -p3y, -1, p3x * q3y, p3y * q3y]] 5 = [0, 0, 0, -p2x, -p2y, -1, p2x * q2y, p2y * q2y] from rfl,
          show getv [-q0x, -q0y, -q1x, -q1y, -q2x, -q2y, -q3x, -q3y] 5 = -q2y from rfl,
        dot8_explicit, hY2]
      field_simp
      ring
    · rw [show getr
            [[-p0x, -p0y, -1, 0, 0, 0, p0x * q0x, p0y * q0x],
         [0, 0, 0, -p0x, -p0y, -1, p0x * q0y, p0y * q0y],
         [-p1x, -p1y, -1, 0, 0, 0, p1x * q1x, p1y * q1x],
         [0, 0, 0, -p1x, -p1y, -1, p1x * q1y, p1y * q1y],
         [-p2x, -p2y, -1, 0, 0, 0, p2x * q2x, p2y * q2x],
         [0, 0, 0, -p2x, -p2y, -1, p2x * q2y, p2y * q2y],
         [-p3x, -p3y, -1, 0, 0, 0, p3x * q3x, p3y * q3x],
         [0, 0, 0, -p3x, -p3y, -1, p3x * q3y, p3y * q3y]] 6 = [-p3x, -p3y, -1, 0, 0, 0, p3x * q3x, p3y * q3x] from rfl,
          show getv [-q0x, -q0y, -q1x, -q1y, -q2x, -q2y, -q3x, -q3y] 6 = -q3x from rfl,
        dot8_explicit, hX3]
      field_simp
      ring
    · rw [show getr
            [[-p0x, -p0y, -1, 0, 0, 0, p0x * q0x, p0y * q0x],
         [0, 0, 0, -p0x, -p0y, -1, p0x * q0y, p0y * q0y],
         [-p1x, -p1y, -1, 0, 0, 0, p1x * q1x, p1y * q1x],
         [0, 0, 0, -p1x, -p1y, -1, p1x * q1y, p1y * q1y],
         [-p2x, -p2y, -1, 0, 0, 0, p2x * q2x, p2y * q2x],
         [0, 0, 0, -p2x, -p2y, -1, p2x * q2y, p2y * q2y],
         [-p3x, -p3y, -1, 0, 0, 0, p3x * q3x, p3y * q3x],
         [0, 0, 0, -p3x, -p3y, -1, p3x * q3y, p3y * q3y]] 7 = [0, 0, 0, -p3x, -p3y, -1, p3x * q3y, p3y * q3y] from rfl,
          show getv [-q0x, -q0y, -q1x, -q1y, -q2x, -q2y, -q3x, -q3y] 7 = -q3y from rfl,
        dot8_explicit, hY3]
      field_simp
      ring
  have hrows9 : ∀ r, r < 8 →
      (getr (buildA [⟨p0x, p0y⟩, ⟨p1x, p1y⟩, ⟨p2x, p2y⟩, ⟨p3x, p3y⟩]
        [⟨q0x, q0y⟩, ⟨q1x, q1y⟩, ⟨q2x, q2y⟩, ⟨q3x, q3y⟩]) r).length = 9 := by
    intro r hr
    interval_cases r <;> rfl
  have hsolve : solve (buildA [⟨p0x, p0y⟩, ⟨p1x, p1y⟩, ⟨p2x, p2y⟩, ⟨p3x, p3y⟩]
      [⟨q0x, q0y⟩, ⟨q1x, q1y⟩, ⟨q2x, q2y⟩, ⟨q3x, q3y⟩]) = [a, b, c, d, e, f, g, h] :=
    solve_exact _ _ rfl rfl hrows9 hsat hok rfl
  have hcomp : Homography.compute [⟨p0x, p0y⟩, ⟨p1x, p1y⟩, ⟨p2x, p2y⟩, ⟨p3x, p3y⟩]
      [⟨q0x, q0y⟩, ⟨q1x, q1y⟩, ⟨q2x, q2y⟩, ⟨q3x, q3y⟩] =
      .matrix (solve (buildA [⟨p0x, p0y⟩, ⟨p1x, p1y⟩, ⟨p2x, p2y⟩, ⟨p3x, p3y⟩]
        [⟨q0x, q0y⟩, ⟨q1x, q1y⟩, ⟨q2x, q2y⟩, ⟨q3x, q3y⟩]) ++ [1]) := rfl
  have hmain : Homography.compute [⟨p0x, p0y⟩, ⟨p1x, p1y⟩, ⟨p2x, p2y⟩, ⟨p3x, p3y⟩]
      [⟨q0x, q0y⟩, ⟨q1x, q1y⟩, ⟨q2x, q2y⟩, ⟨q3x, q3y⟩] =
      .matrix [a, b, c, d, e, f, g, h, 1] := by
    rw [hcomp, hsolve]
    rfl
  refine ⟨hmain, ?_⟩
  intro p hm hc
  rw [hmain] at hc
  simp only [ComputeResult.matrix.injEq] at hc
  subst hc
  rfl

/-- Witness for the amended C2 statement: the unit square under the
projective matrix `[2,1,3, 1,1,1, 1/2,1/3,1]` is recovered exactly. -/
theorem compute_exact_recovery_witness :
    Homography.compute [⟨0, 0⟩, ⟨1, 0⟩, ⟨0, 1⟩, ⟨1, 1⟩]
        [⟨3, 1⟩, ⟨10/3, 4/3⟩, ⟨3, 3/2⟩, ⟨36/11, 18/11⟩] =
      .matrix [2, 1, 3, 1, 1, 1, 1/2, 1/3, 1] ∧
    Homography.transform ⟨7, 9⟩ (some [2, 1, 3, 1, 1, 1, 1/2, 1/3, 1]) =
      Homography.transform ⟨7, 9⟩ (some [2, 1, 3, 1, 1, 1, 1/2, 1/3, 1]) :=
  ⟨(compute_exact_recovery 0 0 1 0 0 1 1 1 3 1 (10/3) (4/3) 3 (3/2) (36/11)
      (18/11) 2 1 3 1 1 1 (1/2) (1/3) (by decide) (by decide) (by decide)
      (by decide) (by decide)).1,
   (compute_exact_recovery 0 0 1 0 0 1 1 1 3 1 (10/3) (4/3) 3 (3/2) (36/11)
      (18/11) 2 1 3 1 1 1 (1/2) (1/3) (by decide) (by decide) (by decide)
      (by decide) (by decide)).2 ⟨7, 9⟩ [2, 1, 3, 1, 1, 1, 1/2, 1/3, 1]
     (by decide)⟩

/-! ## Claim C3 -/

/-- Claim C3: `Homography.invert` succeeds exactly on coefficient arrays
whose determinant magnitude is at least the 1e-10 tolerance (returning
`null` below it), and whenever neither application of
`Homography.transform` hits the at-infinity guard, transforming a point
by `H` and then by `invert H` reproduces the point exactly. -/
theorem invert_succeeds_and_roundtrips :
    (∀ a b c d e f g h i : ℚ,
        |a * (e * i - h * f) - b * (d * i - f * g) + c * (d * h - e * g)| < tol →
        Homography.invert [a, b, c, d, e, f, g, h, i] = none) ∧
    (∀ a b c d e f g h i x y : ℚ,
        ¬ |a * (e * i - h * f) - b * (d * i - f * g) + c * (d * h - e * g)| < tol →
        ¬ |g * x + h * y + i| < tol →
        ¬ |1 / (g * x + h * y + i)| < tol →
        (Homography.invert [a, b, c, d, e, f, g, h, i]).isSome = true ∧
        Homography.transform ⟨x, y⟩ (some [a, b, c, d, e, f, g, h, i]) =
          .pt ⟨(a * x + b * y + c) / (g * x + h * y + i),
               (d * x + e * y + f) / (g * x + h * y + i)⟩ ∧
        ∀ q : Vec, Homography.invert [a, b, c, d, e, f, g, h, i] = some q →
          Homography.transform
              ⟨(a * x + b * y + c) / (g * x + h * y + i),
               (d * x + e * y + f) / (g * x + h * y + i)⟩ (some q) =
            .pt ⟨x, y⟩) := by
  constructor
  · intro a b c d e f g h i hdet
    simp [Homography.invert, getv, hdet]
  · intro a b c d e f g h i x y hdet hw hw2
    have wne : g * x + h * y + i ≠ 0 := ne_zero_of_not_abs_lt_tol hw
    have detne : a * (e * i - h * f) - b * (d * i - f * g) + c * (d * h - e * g) ≠ 0 :=
      ne_zero_of_not_abs_lt_tol hdet
    refine ⟨by simp [Homography.invert, getv, hdet], by simp [Homography.transform, getv, hw], ?_⟩
    intro q hq
    rw [invert_explicit a b c d e f g h i hdet] at hq
    obtain rfl := Option.some.inj hq
    rw [transform_explicit]
    have hW2 :
        (d * h - g * e) *
              (1 / (a * (e * i - h * f) - b * (d * i - f * g)
                + c * (d * h - e * g))) *
            ((a * x + b * y + c) / (g * x + h * y + i)) +
          (g * b - a * h) *
              (1 / (a * (e * i - h * f) - b * (d * i - f * g)
                + c * (d * h - e * g))) *
            ((d * x + e * y + f) / (g * x + h * y + i)) +
          (a * e - d * b) *
              (1 / (a * (e * i - h * f) - b * (d * i - f * g)
                + c * (d * h - e * g))) = 1 / (g * x + h * y + i) := by
      field_simp
      ring
    rw [hW2, if_neg hw2]
    have hxc :
        ((e * i - h * f) *
              (1 / (a * (e * i - h * f) - b * (d * i - f * g)
                + c * (d * h - e * g))) *
            ((a * x + b * y + c) / (g * x + h * y + i)) +
          (c * h - b * i) *
              (1 / (a * (e * i - h * f) - b * (d * i - f * g)
                + c * (d * h - e * g))) *
            ((d * x + e * y + f) / (g * x + h * y + i)) +
          (b * f - c * e) *
              (1 / (a * (e * i - h * f) - b * (d * i - f * g)
                + c * (d * h - e * g)))) / (1 / (g * x + h * y + i)) = x := by
      rw [div_div_eq_mul_div, div_one]
      field_simp
      ring
    have hyc :
        ((f * g - d * i) *
              (1 / (a * (e * i - h * f) - b * (d * i - f * g)
                + c * (d * h - e * g))) *
            ((a * x + b * y + c) / (g * x + h * y + i)) +
          (a * i - c * g) *
              (1 / (a * (e * i - h * f) - b * (d * i - f * g)
                + c * (d * h - e * g))) *
            ((d * x + e * y + f) / (g * x + h * y + i)) +
          (d * c - a * f) *
              (1 / (a * (e * i - h * f) - b * (d * i - f * g)
                + c * (d * h - e * g)))) / (1 / (g * x + h * y + i)) = y := by
      rw [div_div_eq_mul_div, div_one]
      field_simp
      ring
    rw [hxc, hyc]

/-- Witness for the C3 statement: the zero matrix is rejected, and the
identity homography round-trips the point (3, 5) exactly. -/
theorem invert_succeeds_and_roundtrips_witness :
    Homography.invert [0, 0, 0, 0, 0, 0, 0, 0, 0] = none ∧
    (Homography.invert [1, 0, 0, 0, 1, 0, 0, 0, 1]).isSome = true ∧
    Homography.transform
        ⟨(1 * 3 + 0 * 5 + 0) / (0 * 3 + 0 * 5 + 1),
         (0 * 3 + 1 * 5 + 0) / (0 * 3 + 0 * 5 + 1)⟩
        (some [1, 0, 0, 0, 1, 0, 0, 0, 1]) = .pt ⟨3, 5⟩ :=
  ⟨invert_succeeds_and_roundtrips.1 0 0 0 0 0 0 0 0 0 (by decide),
   (invert_succeeds_and_roundtrips.2 1 0 0 0 1 0 0 0 1 3 5
      (by decide) (by decide) (by decide)).1,
   (invert_succeeds_and_roundtrips.2 1 0 0 0 1 0 0 0 1 3 5
      (by decide) (by decide) (by decide)).2.2 [1, 0, 0, 0, 1, 0, 0, 0, 1]
     (by decide)⟩

/-! ## Claim C4 -/

/-- Claim C4: for any coefficient array with at least 9 entries,
`Homography.transform` computes `w = h6*x + h7*y + h8`, returns the
distinguishable at-infinity marker when `|w| < 1e-10`, and otherwise
returns exactly `((h0*x + h1*y + h2)/w, (h3*x + h4*y + h5)/w)`. -/
theorem transform_projective_formula :
    ∀ (a b c d e f g h i x y : ℚ) (rest : Vec),
      Homography.transform ⟨x, y⟩ (some ([a, b, c, d, e, f, g, h, i] ++ rest)) =
        if |g * x + h * y + i| < tol then .atInfinity
        else .pt ⟨(a * x + b * y + c) / (g * x + h * y + i),
                  (d * x + e * y + f) / (g * x + h * y + i)⟩ := by
  intro a b c d e f g h i x y rest
  have hlen : ¬ ([a, b, c, d, e, f, g, h, i] ++ rest : Vec).length < 9 := by
    simp [List.length_append]
  simp [Homography.transform, hlen, getv]

/-! ## Claim C5 -/

/-- Claim C5 (counterexample): with 4 reference points but 5 image points
(mismatched lengths), `Homography.compute` does not fail fast; it returns
a matrix built from the first four correspondences. -/
theorem compute_mismatched_returns_matrix :
    Homography.compute [⟨0, 0⟩, ⟨1, 0⟩, ⟨0, 1⟩, ⟨1, 1⟩]
        [⟨0, 0⟩, ⟨1, 0⟩, ⟨0, 1⟩, ⟨1, 1⟩, ⟨99, 99⟩]
      = .matrix [1, 0, 0, 0, 1, 0, 0, 0, 1] := by decide

/-- Claim C5 (amended): `Homography.compute` returns the null failure
signal exactly when fewer than 4 correspondences are supplied.  It never
checks for mismatched lengths: extra image points beyond the reference
count are silently ignored (the result equals the matched-length result),
and a shorter image list makes the JS code throw a TypeError (`crash`)
rather than return a failure signal. -/
theorem compute_precondition_behavior :
    (∀ src dst : List Point, src.length < 4 →
        Homography.compute src dst = .nullResult) ∧
    (∀ src dst extra : List Point, src.length ≤ dst.length →
        Homography.compute src (dst ++ extra) = Homography.compute src dst) ∧
    (∀ src dst : List Point, 4 ≤ src.length → dst.length < src.length →
        Homography.compute src dst = .crash) := by
  refine ⟨?_, ?_, ?_⟩
  · intro src dst hlt
    simp [Homography.compute, hlt]
  · intro src dst extra hle
    by_cases h4 : src.length < 4
    · simp [Homography.compute, h4]
    · have hnc : ¬ dst.length < src.length := Nat.not_lt.2 hle
      have hnc2 : ¬ (dst ++ extra).length < src.length := by
        rw [List.length_append]; omega
      simp only [Homography.compute, if_neg h4, if_neg hnc, if_neg hnc2,
        buildA_append_extra src dst extra hle]
  · intro src dst h4 hlt
    simp [Homography.compute, Nat.not_lt.2 h4, hlt]

/-- Witness for the amended C5 statement at concrete inputs. -/
theorem compute_precondition_behavior_witness :
    Homography.compute [] [] = .nullResult ∧
    Homography.compute [⟨0, 0⟩, ⟨1, 0⟩, ⟨0, 1⟩, ⟨1, 1⟩]
        ([⟨0, 0⟩, ⟨1, 0⟩, ⟨0, 1⟩, ⟨1, 1⟩] ++ [⟨99, 99⟩])
      = Homography.compute [⟨0, 0⟩, ⟨1, 0⟩, ⟨0, 1⟩, ⟨1, 1⟩]
          [⟨0, 0⟩, ⟨1, 0⟩, ⟨0, 1⟩, ⟨1, 1⟩] ∧
    Homography.compute [⟨0, 0⟩, ⟨1, 0⟩, ⟨0, 1⟩, ⟨1, 1⟩] [⟨5, 5⟩] = .crash :=
  ⟨compute_precondition_behavior.1 [] [] (by decide),
   compute_precondition_behavior.2.1 _ _ _ (by decide),
   compute_precondition_behavior.2.2 _ _ (by decide) (by decide)⟩

/-! ## Claim C6 -/

/-- Claim C6 (counterexample): a complete center-circle point set of seven
identical clicks makes estimation fail (the computed matrix is singular,
so inversion returns `null`), yet `handleCalibrationComplete` leaves the
session state entirely unchanged: the just-attempted point list is
retained, not cleared. -/
theorem calibrationComplete_failure_counterexample :
    Index.handleCalibrationComplete
        ⟨.centerCircle, List.replicate 7 ⟨0, 0, "p0"⟩, false, none, none⟩ =
      ⟨.centerCircle, List.replicate 7 ⟨0, 0, "p0"⟩, false, none, none⟩ ∧
    Homography.compute (getFieldReferencePoints .centerCircle)
        (List.replicate 7 (⟨0, 0⟩ : Point)) = .matrix [0, 0, 0, 0, 0, 0, 0, 0, 1] ∧
    Homography.invert [0, 0, 0, 0, 0, 0, 0, 0, 1] = none ∧
    List.replicate 7 (⟨0, 0, "p0"⟩ : CalibrationPoint) ≠ [] := by decide

/-- Claim C6 (amended): when a completion attempt fails (the estimator
returned a matrix whose inversion fails), the session signals failure and
sets no matrix and does not transition to calibrated — the state is
returned entirely unchanged — but the attempted image-point list is
retained rather than discarded. -/
theorem calibrationComplete_failure_keeps_state :
    ∀ (s : Index.SessionState) (hv : Vec),
      Homography.compute (getFieldReferencePoints s.calibrationMode)
          (s.calibrationPoints.map fun p => (⟨p.x, p.y⟩ : Point)) = .matrix hv →
      Homography.invert hv = none →
      Index.handleCalibrationComplete s = s := by
  intro s hv hc hi
  unfold Index.handleCalibrationComplete
  by_cases hlen : (getFieldReferencePoints s.calibrationMode).length ≤
      (s.calibrationPoints.map fun p => (⟨p.x, p.y⟩ : Point)).length
  · simp only [hlen, if_true, hc, hi]
  · simp only [hlen, if_false]

/-- Witness for the amended C6 statement at a concrete failing session. -/
theorem calibrationComplete_failure_keeps_state_witness :
    Index.handleCalibrationComplete
        ⟨.centerCircle, List.replicate 7 ⟨0, 0, "w6"⟩, false, none, none⟩ =
      ⟨.centerCircle, List.replicate 7 ⟨0, 0, "w6"⟩, false, none, none⟩ :=
  calibrationComplete_failure_keeps_state _ [0, 0, 0, 0, 0, 0, 0, 0, 1]
    (by decide) (by decide)

/-! ## Claim C7 -/

/-- Claim C7: after `handleCalibrationReset` or
`handleCalibrationModeChange`, from any session state, the accumulated
point list is empty, both matrices are discarded (consumers see the
no-matrix condition, never a stale matrix), and the calibrated flag is
cleared. -/
theorem reset_and_modeChange_clear_session :
    ∀ (s : Index.SessionState) (m : CalibrationMode),
      (Index.handleCalibrationReset s).calibrationPoints = [] ∧
      (Index.handleCalibrationReset s).homography = none ∧
      (Index.handleCalibrationReset s).inverseHomography = none ∧
      (Index.handleCalibrationReset s).isCalibrated = false ∧
      (Index.handleCalibrationModeChange m s).calibrationPoints = [] ∧
      (Index.handleCalibrationModeChange m s).homography = none ∧
      (Index.handleCalibrationModeChange m s).inverseHomography = none ∧
      (Index.handleCalibrationModeChange m s).isCalibrated = false :=
  fun _ _ => ⟨rfl, rfl, rfl, rfl, rfl, rfl, rfl, rfl⟩

/-! ## Claim C8 -/

/-- Claim C8 (counterexample): in center-circle mode (required count 7),
the page-level `handleCalibrationPointClick` appends unconditionally, so
an eighth click grows the accumulated list to 8 > 7. -/
theorem addPoint_exceeds_bound_counterexample :
    (Index.handleCalibrationPointClick 1 2
        ⟨.centerCircle, List.replicate 7 ⟨0, 0, "c8"⟩, false, none,
          none⟩).calibrationPoints.length = 8 ∧
    CalibrationSidebar.getRequiredPoints .centerCircle = 7 ∧
    Index.getRequiredPoints .centerCircle = 7 := by decide

/-- Claim C8 (amended): only `FieldCalibration.handleCanvasClick` enforces
the bound — once the accumulated count reaches the mode's required count
it ignores further clicks — while the page-level
`handleCalibrationPointClick` (the path actually wired to the video
overlay) appends unconditionally, growing the list by one on every click,
so the session list can exceed the required count. -/
theorem canvasClick_guard_and_index_append :
    (∀ (x y : ℚ) (s : Index.SessionState),
        (FieldCalibration.configPoints s.calibrationMode).length ≤
          s.calibrationPoints.length →
        FieldCalibration.handleCanvasClick x y s = s) ∧
    (∀ (x y : ℚ) (s : Index.SessionState),
        (Index.handleCalibrationPointClick x y s).calibrationPoints.length =
          s.calibrationPoints.length + 1) := by
  constructor
  · intro x y s hfull
    simp [FieldCalibration.handleCanvasClick, hfull]
  · intro x y s
    simp [Index.handleCalibrationPointClick]

/-- Witness for the amended C8 statement at concrete inputs. -/
theorem canvasClick_guard_witness :
    FieldCalibration.handleCanvasClick 5 6
        ⟨.centerCircle, List.replicate 7 ⟨0, 0, "w8"⟩, false, none, none⟩ =
      ⟨.centerCircle, List.replicate 7 ⟨0, 0, "w8"⟩, false, none, none⟩ ∧
    (Index.handleCalibrationPointClick 5 6
        ⟨.centerCircle, [], false, none, none⟩).calibrationPoints.length =
      0 + 1 :=
  ⟨canvasClick_guard_and_index_append.1 5 6 _ (by decide),
   canvasClick_guard_and_index_append.2 5 6 _⟩

/-! ## Claim C9 -/

/-- Claim C9: every calibration mode has a fixed ordered reference table
whose length equals the mode's required count (8, 8, 7), the instruction
tables shown to the user have the same lengths, and the center-circle
table is exactly the ordered 7-point list from the spec (center spot,
circle top, circle right, circle bottom, circle left, top-touchline
midpoint, bottom-touchline midpoint), which is `CALIBRATION_DST_POINTS`. -/
theorem referenceTables_match_requirements :
    (∀ m : CalibrationMode,
        (getFieldReferencePoints m).length =
          CalibrationSidebar.getRequiredPoints m) ∧
    (∀ m : CalibrationMode,
        (Index.instructions m).length = CalibrationSidebar.getRequiredPoints m) ∧
    (∀ m : CalibrationMode,
        (FieldCalibration.configPoints m).length =
          CalibrationSidebar.getRequiredPoints m) ∧
    (∀ m : CalibrationMode,
        Index.getRequiredPoints m = CalibrationSidebar.getRequiredPoints m) ∧
    CALIBRATION_PROMPTS.length = 7 ∧
    getFieldReferencePoints .centerCircle =
      [⟨105 / 2, 34⟩, ⟨105 / 2, 497 / 20⟩, ⟨1233 / 20, 34⟩, ⟨105 / 2, 863 / 20⟩,
       ⟨867 / 20, 34⟩, ⟨105 / 2, 0⟩, ⟨105 / 2, 68⟩] ∧
    CALIBRATION_DST_POINTS = getFieldReferencePoints .centerCircle := by
  refine ⟨?_, ?_, ?_, ?_, rfl, rfl, rfl⟩ <;> intro m <;> cases m <;> rfl

/-! ## Claim C10 -/

/-- Claim C10: a `null` coefficient array, or one with fewer than 9
entries, makes `Homography.transform` return the origin point with no
failure signal, regardless of the input point. -/
theorem transform_nullish_returns_origin :
    ∀ p : Point,
      Homography.transform p none = .pt ⟨0, 0⟩ ∧
      ∀ hv : Vec, hv.length < 9 →
        Homography.transform p (some hv) = .pt ⟨0, 0⟩ := by
  intro p
  refine ⟨rfl, ?_⟩
  intro hv hlen
  simp [Homography.transform, hlen]

/-- Witness for the C10 statement at concrete inputs. -/
theorem transform_nullish_returns_origin_witness :
    Homography.transform ⟨3, 7⟩ none = .pt ⟨0, 0⟩ ∧
      Homography.transform ⟨3, 7⟩ (some [1, 2]) = .pt ⟨0, 0⟩ :=
  ⟨(transform_nullish_returns_origin ⟨3, 7⟩).1,
   (transform_nullish_returns_origin ⟨3, 7⟩).2 [1, 2] (by decide)⟩

end PlayDrawTrack
